import Mathlib

/-! Shallow embedding of `src/main.py` (PromoTechBR/BotTelegram), the search-based
offers bot: discount computation, affiliate-link building, sent-id persistence,
offer collection (dedup / filter / sort) and the dispatch loop.

Modelling conventions:
* Python numbers (prices, discount percentages) are rationals `ℚ`.
* A Python value that may be `None` / missing from a dict is an `Option`.
* Python strings are `String`, except URLs in `build_affiliate_link`, which are
  `List Char` (a faithful view of a Python `str` as a sequence of characters,
  chosen so that the substring test `"?" in permalink` is plain membership).
* Code that can raise returns `Except Unit` (the exception payload is opaque).
* The persisted sent-ids file is a small inductive `FileState`.
-/

/-- Round a rational to the nearest integer, ties to even. -/
def roundHalfEven (x : ℚ) : ℤ :=
  if x - Rat.floor x < 1/2 then Rat.floor x
  else if 1/2 < x - Rat.floor x then Rat.floor x + 1
  else if Rat.floor x % 2 = 0 then Rat.floor x else Rat.floor x + 1

/-- Rounding to 2 decimal places, ties to even, modelling Python `round(x, 2)`. -/
def round2 (q : ℚ) : ℚ :=
  (roundHalfEven (q * 100) : ℚ) / 100

/-- Embeds `compute_discount` from `src/main.py` lines 86-91, on the two fields it reads.
`price = item.get("price")` and `original_price = item.get("original_price")` are the
arguments (`none` = key absent or `None`).  The guard `original_price and
original_price > price` first tests truthiness of `original_price` (`None` and `0`
are falsy) and only then compares; comparing a number with `None` raises
`TypeError`, modelled as `Except.error ()`. -/
def compute_discount (price original_price : Option ℚ) : Except Unit ℚ :=
  match original_price with
  | none => Except.ok 0
  | some op =>
      if op = 0 then Except.ok 0
      else
        match price with
        | none => Except.error ()
        | some p => if p < op then Except.ok (round2 ((op - p) / op * 100)) else Except.ok 0

/-- The default `ML_AFFILIATE_TAG` (`"promotechbr"`). -/
def ML_AFFILIATE_TAG : List Char := "promotechbr".toList

/-- Embeds `build_affiliate_link` from `src/main.py` lines 76-83: if `"?" in permalink`
append `&aff_tag=<tag>`, else append `?aff_tag=<tag>`.  There is no check whether
the tag is already present. -/
def build_affiliate_link (tag : List Char) (permalink : List Char) : List Char :=
  if '?' ∈ permalink then permalink ++ ('&' :: ("aff_tag=".toList ++ tag))
  else permalink ++ ('?' :: ("aff_tag=".toList ++ tag))

/-- State of the persisted sent-ids file (`SENT_IDS_FILE`).
`absent`: the file does not exist; `unreadable`: it exists but opening, JSON
parsing, `data.get` or `set(...)` raises (unreadable, malformed JSON, non-object
document, ill-typed `ids`); `valid ids`: a JSON object, with `ids` the value of
its optional `"ids"` key as a string array. -/
inductive FileState where
  | absent
  | unreadable
  | valid (ids : Option (List String))
deriving DecidableEq, Repr

/-- Embeds `load_sent_ids` from `src/main.py` lines 43-51: missing file or any exception
yields the empty set; otherwise `set(data.get("ids", []))`. -/
def load_sent_ids : FileState → Finset String
  | FileState.absent => ∅
  | FileState.unreadable => ∅
  | FileState.valid none => ∅
  | FileState.valid (some ids) => ids.toFinset

/-- Embeds `save_sent_ids` from `src/main.py` lines 54-59: overwrites the file with
`{"ids": list(sent_ids)}` (iteration order of a Python set is unspecified; we
write the sorted listing, which denotes the same set). -/
def save_sent_ids (s : Finset String) : FileState :=
  FileState.valid (some (s.sort (· ≤ ·)))

/-- A raw search-result item as returned by the marketplace API, restricted to the
fields `collect_best_offers` reads via `item.get(...)` (`none` = key absent or
`None`). -/
structure RawItem where
  id : Option String
  title : Option String
  price : Option ℚ
  original_price : Option ℚ
  sold_quantity : Option ℤ
  permalink : Option String
  thumbnail : Option String
deriving DecidableEq, Repr

/-- The derived offer record that `collect_best_offers` stores in `all_items`
(`src/main.py` lines 113-122). -/
structure Offer where
  id : String
  title : String
  price : Option ℚ
  original_price : Option ℚ
  discount : ℚ
  sold_quantity : ℤ
  permalink : Option String
  thumbnail : Option String
deriving DecidableEq, Repr

/-- Embeds `item.get("id")` followed by the truthiness test `if not item_id: continue`
(`src/main.py` lines 104-106): `None` and the empty string are falsy. -/
def itemId (it : RawItem) : Option String :=
  match it.id with
  | none => none
  | some s => if s = "" then none else some s

/-- Building the stored offer record for a fresh id (`src/main.py` lines 110-122).
Propagates the `TypeError` that `compute_discount` can raise.
`title[:120]` is `String.take 120`; `item.get("sold_quantity") or 0` maps both
`None` and `0` to `0`. -/
def mkOffer (i : String) (it : RawItem) : Except Unit Offer :=
  (compute_discount it.price it.original_price).map fun d =>
    { id := i
      title := (it.title.getD "").take 120
      price := it.price
      original_price := it.original_price
      discount := d
      sold_quantity := it.sold_quantity.getD 0
      permalink := it.permalink
      thumbnail := it.thumbnail }

/-- One iteration of the inner `for item in results` loop of
`collect_best_offers`: skip falsy ids, skip already-seen ids, otherwise append the
new offer record (Python dicts preserve insertion order, so `all_items` is an
ordered association list keyed by `Offer.id`). -/
def step (acc : List Offer) (it : RawItem) : Except Unit (List Offer) :=
  match itemId it with
  | none => Except.ok acc
  | some i =>
      if i ∈ acc.map Offer.id then Except.ok acc
      else (mkOffer i it).map fun o => acc ++ [o]

/-- The inner loop over one keyword's result list. -/
def processItems (acc : List Offer) : List RawItem → Except Unit (List Offer)
  | [] => Except.ok acc
  | it :: rest =>
      match step acc it with
      | Except.error e => Except.error e
      | Except.ok acc2 => processItems acc2 rest

/-- The outer `for kw in KEYWORDS` loop of `collect_best_offers` (lines 96-122),
abstracted over the outcome of `fetch_offers_for_keyword` for each keyword:
`Except.error _` means the fetch raised (caught, logged, `continue`), `Except.ok
items` its result list.  Exceptions from `compute_discount` inside the inner loop
are NOT caught and short-circuit the whole collection. -/
def mergedItems (acc : List Offer) : List (Except Unit (List RawItem)) → Except Unit (List Offer)
  | [] => Except.ok acc
  | Except.error _ :: rest => mergedItems acc rest
  | Except.ok items :: rest =>
      match processItems acc items with
      | Except.error e => Except.error e
      | Except.ok acc2 => mergedItems acc2 rest

/-- Descending lexicographic comparison on `(discount, sold_quantity)`: the order
in which `filtered.sort(key=lambda x: (x["discount"], x["sold_quantity"]),
reverse=True)` leaves adjacent elements. -/
def offerGE (a b : Offer) : Prop :=
  b.discount < a.discount ∨ (a.discount = b.discount ∧ b.sold_quantity ≤ a.sold_quantity)

instance : DecidableRel offerGE := fun a b => by
  unfold offerGE; infer_instance

instance : IsTotal Offer offerGE where
  total a b := by
    unfold offerGE
    rcases lt_trichotomy a.discount b.discount with h | h | h
    · exact Or.inr (Or.inl h)
    · rcases le_total b.sold_quantity a.sold_quantity with hs | hs
      · exact Or.inl (Or.inr ⟨h, hs⟩)
      · exact Or.inr (Or.inr ⟨h.symm, hs⟩)
    · exact Or.inl (Or.inl h)

instance : IsTrans Offer offerGE where
  trans a b c hab hbc := by
    unfold offerGE at *
    rcases hab with h1 | ⟨e1, s1⟩
    · rcases hbc with h2 | ⟨e2, s2⟩
      · exact Or.inl (h2.trans h1)
      · exact Or.inl (e2 ▸ h1)
    · rcases hbc with h2 | ⟨e2, s2⟩
      · exact Or.inl (e1 ▸ h2)
      · exact Or.inr ⟨e1.trans e2, s2.trans s1⟩

/-- The default `MIN_DISCOUNT_PERCENT` (`"15"`). -/
def MIN_DISCOUNT_PERCENT : ℚ := 15

/-- Embeds `collect_best_offers` from `src/main.py` lines 94-130, abstracted over the
per-keyword fetch outcomes and the configured minimum discount: merge with
first-id-wins dedup, keep offers with `discount >= minD`, sort descending by
`(discount, sold_quantity)` (Python list sort is stable; so is `insertionSort`). -/
def collect_best_offers (minD : ℚ) (results : List (Except Unit (List RawItem))) :
    Except Unit (List Offer) :=
  (mergedItems [] results).map fun l =>
    List.insertionSort offerGE (l.filter fun o => minD ≤ o.discount)

/-- The default `OFFERS_PER_RUN` (`"10"`). -/
def OFFERS_PER_RUN : ℕ := 10

/-- Outcome of one `run_once_logic` call: the persisted file afterwards, whether
an exception escaped, and the ids of the offers whose message was actually sent,
in send order. -/
structure RunOut where
  file : FileState
  raised : Bool
  sent : List String
deriving DecidableEq, Repr

/-- The `for idx, item in enumerate(to_send)` loop of `run_once_logic`
(`src/main.py` lines 195-202), abstracted over which sends raise: `fails i =
true` means the `send_telegram_message` call for the i-th item (0-based) raises.
Returns the in-memory `sent_ids` set, the ids sent so far, and whether the loop
aborted. -/
def sendLoop (fails : ℕ → Bool) : List Offer → Finset String → ℕ →
    Finset String × List String × Bool
  | [], sentIds, _ => (sentIds, [], false)
  | o :: rest, sentIds, i =>
      if fails i then (sentIds, [], true)
      else
        let out := sendLoop fails rest (insert o.id sentIds) (i + 1)
        (out.1, o.id :: out.2.1, out.2.2)

/-- Embeds `run_once_logic` from `src/main.py` lines 178-211, abstracted over the
collected offers, the persisted file, the batch size `B = OFFERS_PER_RUN` and the
send-failure oracle.  Selects offers whose id is not in the loaded set, takes the
first `B`, sends them one by one; an exception in the loop propagates (no
per-item catch), so `save_sent_ids` only runs after the whole loop finishes. -/
def run_once_logic (fails : ℕ → Bool) (B : ℕ) (file : FileState) (offers : List Offer) :
    RunOut :=
  let sentIds := load_sent_ids file
  let newOffers := offers.filter fun o => o.id ∉ sentIds
  if newOffers = [] then ⟨file, false, []⟩
  else
    let toSend := newOffers.take B
    let out := sendLoop fails toSend sentIds 0
    if out.2.2 then ⟨file, true, out.2.1⟩
    else ⟨save_sent_ids out.1, false, out.2.1⟩

/-- The concatenated stream of raw items from the keywords whose fetch
succeeded, in keyword order then result order. -/
def successItems : List (Except Unit (List RawItem)) → List RawItem
  | [] => []
  | Except.error _ :: rest => successItems rest
  | Except.ok items :: rest => items ++ successItems rest

/-- The sublist of per-keyword fetch outcomes that did not raise. -/
def keepSuccesses : List (Except Unit (List RawItem)) → List (Except Unit (List RawItem))
  | [] => []
  | Except.error _ :: rest => keepSuccesses rest
  | Except.ok items :: rest => Except.ok items :: keepSuccesses rest

/-! Concrete sample data used by witnesses. -/

/-- Sample raw item: `price=80`, `original_price=100`, `sold_quantity=5`. -/
def itemA : RawItem := ⟨some "A", some "a", some 80, some 100, some 5, none, none⟩

/-- Sample raw item: `price=80`, `original_price=100`, `sold_quantity=50`. -/
def itemB : RawItem := ⟨some "B", some "b", some 80, some 100, some 50, none, none⟩

/-- Sample raw item: `price=70`, `original_price=100`, `sold_quantity=1`. -/
def itemC : RawItem := ⟨some "C", some "c", some 70, some 100, some 1, none, none⟩

/-- The offer record built from `itemA` (discount 20). -/
def offA : Offer := ⟨"A", "a", some 80, some 100, 20, 5, none, none⟩

/-- The offer record built from `itemB` (discount 20). -/
def offB : Offer := ⟨"B", "b", some 80, some 100, 20, 50, none, none⟩

/-- The offer record built from `itemC` (discount 30). -/
def offC : Offer := ⟨"C", "c", some 70, some 100, 30, 1, none, none⟩

/-- Sample raw item sharing `itemA`'s id `"A"` but with different fields
(`price=50`), used to show that a later duplicate id is dropped. -/
def itemA2 : RawItem := ⟨some "A", some "a2", some 50, some 100, some 9, none, none⟩

/-! Helper lemmas. -/

theorem rat_floor_eq_int_floor (q : ℚ) : Rat.floor q = ⌊q⌋ := by
  rw [Rat.floor_def', Rat.floor_def]

theorem roundHalfEven_intCast (z : ℤ) : roundHalfEven (z : ℚ) = z := by
  unfold roundHalfEven
  rw [rat_floor_eq_int_floor, Int.floor_intCast, sub_self]
  norm_num

theorem round2_intCast (z : ℤ) : round2 (z : ℚ) = z := by
  unfold round2
  have hx : ((z : ℚ) * 100) = ((z * 100 : ℤ) : ℚ) := by push_cast; ring
  rw [hx, roundHalfEven_intCast]
  push_cast
  field_simp

theorem round2_zero : round2 0 = 0 := by
  simpa using round2_intCast 0

theorem round2_eval (a b : ℚ) (z : ℤ) (h : a = (z : ℚ)) (hb : (z : ℚ) = b) : round2 a = b := by
  rw [h, round2_intCast, hb]

theorem cd_80_100 : compute_discount (some 80) (some 100) = Except.ok 20 := by
  simp only [compute_discount]
  norm_num
  exact round2_eval _ _ 20 (by norm_num) (by norm_num)

theorem cd_70_100 : compute_discount (some 70) (some 100) = Except.ok 30 := by
  simp only [compute_discount]
  norm_num
  exact round2_eval _ _ 30 (by norm_num) (by norm_num)

set_option maxRecDepth 4000 in
theorem merged_eval :
    mergedItems [] [Except.ok [itemA, itemB, itemC]] = Except.ok [offA, offB, offC] := by
  simp [mergedItems, processItems, step, itemId, mkOffer, cd_80_100, cd_70_100, Except.map,
    itemA, itemB, itemC, offA, offB, offC]
  refine ⟨by decide, by decide, by decide⟩

theorem collect_eval :
    collect_best_offers MIN_DISCOUNT_PERCENT [Except.ok [itemA, itemB, itemC]] =
      Except.ok [offC, offB, offA] := by
  unfold collect_best_offers
  rw [merged_eval]
  simp only [Except.map]
  congr 1

/-! Claims. -/

/-- C1: for every marketplace item, the computed discount equals
`round2 ((original_price - price) / original_price * 100)` when `original_price`
is present and `original_price > price`, and `0.0` when `original_price` is
absent or `original_price ≤ price`.  (At `original_price = 0` the code's
truthiness test short-circuits to `0.0`, which coincides with the formula under
the division-by-zero convention of `ℚ`.) -/
theorem compute_discount_spec (p : ℚ) (op : Option ℚ) :
    (∀ o, op = some o → p < o →
      compute_discount (some p) op = Except.ok (round2 ((o - p) / o * 100))) ∧
    ((op = none ∨ ∃ o, op = some o ∧ o ≤ p) →
      compute_discount (some p) op = Except.ok 0) := by
  constructor
  · rintro o rfl hpo
    by_cases h0 : o = 0
    · subst h0
      simp [compute_discount, div_zero, round2_zero]
    · simp [compute_discount, h0, hpo]
  · rintro (rfl | ⟨o, rfl, hle⟩)
    · rfl
    · by_cases h0 : o = 0
      · simp [compute_discount, h0]
      · simp [compute_discount, h0, not_lt.mpr hle]

/-- Witness for C1: `price = 80`, `original_price = 100` yields discount `20`. -/
theorem compute_discount_spec_witness :
    compute_discount (some 80) (some 100) = Except.ok 20 := by
  have h := (compute_discount_spec 80 (some 100)).1 100 rfl (by norm_num)
  rw [h]
  have h2 : (((100 : ℚ) - 80) / 100 * 100) = ((20 : ℤ) : ℚ) := by norm_num
  rw [h2, round2_intCast]
  exact congrArg Except.ok (by norm_num)

/-- C10: `compute_discount` raises `TypeError` when `original_price` is a
positive number and `price` is absent, and is total whenever `price` is a number
in every case where `original_price` is truthy (present and nonzero). -/
theorem compute_discount_raises_on_missing_price :
    (∀ o : ℚ, 0 < o → compute_discount none (some o) = Except.error ()) ∧
    (∀ p op : Option ℚ, (∀ o, op = some o → o ≠ 0 → p.isSome) →
      ∃ q, compute_discount p op = Except.ok q) := by
  constructor
  · intro o ho
    simp [compute_discount, ne_of_gt ho]
  · intro p op hpre
    match op with
    | none => exact ⟨0, rfl⟩
    | some o =>
        by_cases h0 : o = 0
        · exact ⟨0, by simp [compute_discount, h0]⟩
        · have hp := hpre o rfl h0
          match p, hp with
          | some pv, _ =>
              by_cases hlt : pv < o
              · exact ⟨round2 ((o - pv) / o * 100), by simp [compute_discount, h0, hlt]⟩
              · exact ⟨0, by simp [compute_discount, h0, hlt]⟩

/-- Witness for C10: `original_price = 100`, `price` absent raises, and the
precondition discharges for `price = 80`, `original_price = 100`. -/
theorem compute_discount_raises_on_missing_price_witness :
    compute_discount none (some 100) = Except.error () ∧
    ∃ q, compute_discount (some 80) (some 100) = Except.ok q :=
  ⟨compute_discount_raises_on_missing_price.1 100 (by norm_num),
   compute_discount_raises_on_missing_price.2 (some 80) (some 100) (by simp)⟩

/-- Counterexample to C6 as stated: `build_affiliate_link` is not idempotent;
re-normalizing an already-tagged URL appends the tag a second time. -/
theorem build_affiliate_link_not_idempotent :
    build_affiliate_link ML_AFFILIATE_TAG
        (build_affiliate_link ML_AFFILIATE_TAG
          "https://produto.mercadolivre.com.br/MLB-123".toList) ≠
      build_affiliate_link ML_AFFILIATE_TAG
        "https://produto.mercadolivre.com.br/MLB-123".toList := by
  decide

/-- C6 amended: `build_affiliate_link` has no tag-presence check; it
unconditionally appends `aff_tag=<tag>` (with `&` if the URL already contains
`?`, else with `?`), so re-normalizing always appends the parameter again and the
result is never equal to the once-normalized URL. -/
theorem build_affiliate_link_appends_again (tag u : List Char) :
    build_affiliate_link tag (build_affiliate_link tag u) =
      build_affiliate_link tag u ++ ('&' :: ("aff_tag=".toList ++ tag)) ∧
    build_affiliate_link tag (build_affiliate_link tag u) ≠
      build_affiliate_link tag u := by
  have hq : '?' ∈ build_affiliate_link tag u := by
    unfold build_affiliate_link
    by_cases h : '?' ∈ u
    · simp [h]
    · simp [h]
  have h1 : build_affiliate_link tag (build_affiliate_link tag u) =
      build_affiliate_link tag u ++ ('&' :: ("aff_tag=".toList ++ tag)) := by
    conv_lhs => rw [build_affiliate_link]
    rw [if_pos hq]
  refine ⟨h1, ?_⟩
  rw [h1]
  intro hcontra
  have hlen := congrArg List.length hcontra
  simp at hlen

theorem mergedItems_keepSuccesses (results : List (Except Unit (List RawItem))) :
    ∀ acc, mergedItems acc (keepSuccesses results) = mergedItems acc results := by
  induction results with
  | nil => intro acc; rfl
  | cons r rest ih =>
      intro acc
      cases r with
      | error e => simpa [keepSuccesses, mergedItems] using ih acc
      | ok items =>
          simp only [keepSuccesses, mergedItems]
          cases processItems acc items with
          | error e => rfl
          | ok acc2 => exact ih acc2

/-- C7: a keyword whose search request raises is skipped and collection continues
with the remaining keywords: `collect_best_offers` never propagates a fetch
exception (`mergedItems` consumes `Except.error` outcomes), and its result equals
the collection over the successful keywords only. -/
theorem collect_best_offers_skips_failed_keywords (minD : ℚ)
    (results : List (Except Unit (List RawItem))) :
    collect_best_offers minD results = collect_best_offers minD (keepSuccesses results) := by
  unfold collect_best_offers
  rw [mergedItems_keepSuccesses results]

/-- C2: the list returned by `collect_best_offers` is sorted descending by
`(discount, sold_quantity)`: every adjacent pair has strictly greater discount
earlier, or equal discount and greater-or-equal `sold_quantity`. -/
theorem collect_best_offers_sorted_desc (minD : ℚ)
    (results : List (Except Unit (List RawItem))) (l : List Offer)
    (h : collect_best_offers minD results = Except.ok l) :
    List.Chain'
      (fun a b => b.discount < a.discount ∨
        (a.discount = b.discount ∧ b.sold_quantity ≤ a.sold_quantity)) l := by
  unfold collect_best_offers at h
  cases hm : mergedItems [] results with
  | error e => rw [hm] at h; simp [Except.map] at h
  | ok m =>
      rw [hm] at h
      simp only [Except.map] at h
      injection h with h
      subst h
      have hs := List.sorted_insertionSort offerGE (m.filter fun o => minD ≤ o.discount)
      exact hs.chain'

/-- Witness for C2: the spec's example, offers with `(discount, sold)` equal to
`(20,5)`, `(20,50)`, `(30,1)` come back as `[(30,1), (20,50), (20,5)]`, which is
descending-adjacent-sorted. -/
theorem collect_best_offers_sorted_desc_witness :
    List.Chain'
      (fun a b => b.discount < a.discount ∨
        (a.discount = b.discount ∧ b.sold_quantity ≤ a.sold_quantity))
      [offC, offB, offA] :=
  collect_best_offers_sorted_desc MIN_DISCOUNT_PERCENT [Except.ok [itemA, itemB, itemC]]
    [offC, offB, offA] collect_eval

/-- C3: every offer returned by `collect_best_offers` has discount at least the
configured minimum threshold, and no collected offer meeting the threshold is
dropped by the filter. -/
theorem collect_best_offers_min_discount (minD : ℚ)
    (results : List (Except Unit (List RawItem))) (l : List Offer)
    (h : collect_best_offers minD results = Except.ok l) :
    (∀ o ∈ l, minD ≤ o.discount) ∧
    (∀ m, mergedItems [] results = Except.ok m →
      ∀ o ∈ m, minD ≤ o.discount → o ∈ l) := by
  unfold collect_best_offers at h
  cases hm : mergedItems [] results with
  | error e => rw [hm] at h; simp [Except.map] at h
  | ok m =>
      rw [hm] at h
      simp only [Except.map] at h
      injection h with h
      subst h
      constructor
      · intro o ho
        have hmem := (List.mem_insertionSort offerGE).1 ho
        simpa using (List.mem_filter.1 hmem).2
      · intro m2 hm2 o ho hd
        injection hm2 with hm2
        subst hm2
        exact (List.mem_insertionSort offerGE).2 (List.mem_filter.2 ⟨ho, by simpa using hd⟩)

/-- Witness for C3: on the sample collection every returned discount is ≥ 15 and
every merged offer with discount ≥ 15 is returned. -/
theorem collect_best_offers_min_discount_witness :
    (∀ o ∈ [offC, offB, offA], MIN_DISCOUNT_PERCENT ≤ o.discount) ∧
    (∀ m, mergedItems [] [Except.ok [itemA, itemB, itemC]] = Except.ok m →
      ∀ o ∈ m, MIN_DISCOUNT_PERCENT ≤ o.discount → o ∈ [offC, offB, offA]) :=
  collect_best_offers_min_discount MIN_DISCOUNT_PERCENT [Except.ok [itemA, itemB, itemC]]
    [offC, offB, offA] collect_eval

theorem mkOffer_id (i : String) (it : RawItem) (o : Offer) (h : mkOffer i it = Except.ok o) :
    o.id = i := by
  unfold mkOffer at h
  cases hcd : compute_discount it.price it.original_price with
  | error e => rw [hcd] at h; simp [Except.map] at h
  | ok d =>
      rw [hcd] at h
      simp only [Except.map] at h
      injection h with h
      subst h
      rfl

theorem processItems_append (a b : List RawItem) : ∀ acc,
    processItems acc (a ++ b) =
      match processItems acc a with
      | Except.error e => Except.error e
      | Except.ok acc2 => processItems acc2 b := by
  induction a with
  | nil => intro acc; rfl
  | cons it rest ih =>
      intro acc
      simp only [List.cons_append, processItems]
      cases step acc it with
      | error e => rfl
      | ok acc2 => exact ih acc2

theorem mergedItems_eq_processItems (results : List (Except Unit (List RawItem))) :
    ∀ acc, mergedItems acc results = processItems acc (successItems results) := by
  induction results with
  | nil => intro acc; rfl
  | cons r rest ih =>
      intro acc
      cases r with
      | error e => simpa [mergedItems, successItems] using ih acc
      | ok items =>
          simp only [mergedItems, successItems]
          rw [processItems_append]
          cases processItems acc items with
          | error e => rfl
          | ok acc2 => exact ih acc2

theorem processItems_spec (stream : List RawItem) : ∀ (acc m : List Offer),
    processItems acc stream = Except.ok m →
    (∃ t, m = acc ++ t) ∧
    ((acc.map Offer.id).Nodup → (m.map Offer.id).Nodup) ∧
    (∀ o ∈ m, o ∈ acc ∨ (o.id ∉ acc.map Offer.id ∧
      ∃ it, stream.find? (fun x => decide (itemId x = some o.id)) = some it ∧
        mkOffer o.id it = Except.ok o)) ∧
    (∀ it ∈ stream, ∀ i, itemId it = some i → i ∈ m.map Offer.id) := by
  induction stream with
  | nil =>
      intro acc m h
      simp only [processItems] at h
      injection h with h
      subst h
      refine ⟨⟨[], (List.append_nil _).symm⟩, fun hn => hn, fun o ho => Or.inl ho, ?_⟩
      intro it hit
      simp at hit
  | cons it rest ih =>
      intro acc m h
      cases hid : itemId it with
      | none =>
          have hstep : step acc it = Except.ok acc := by simp [step, hid]
          simp only [processItems, hstep] at h
          obtain ⟨hpre, hnd, hfirst, hcover⟩ := ih acc m h
          refine ⟨hpre, hnd, ?_, ?_⟩
          · intro o ho
            rcases hfirst o ho with hl | ⟨hnin, it2, hfind, hmk⟩
            · exact Or.inl hl
            · refine Or.inr ⟨hnin, it2, ?_, hmk⟩
              rw [List.find?_cons_of_neg _ (by simp [hid])]
              exact hfind
          · intro it2 hit2 i hi
            rcases List.mem_cons.1 hit2 with rfl | hmem
            · rw [hid] at hi; exact absurd hi (by simp)
            · exact hcover it2 hmem i hi
      | some i =>
          by_cases hmem : i ∈ acc.map Offer.id
          · have hstep : step acc it = Except.ok acc := by simp [step, hid, hmem]
            simp only [processItems, hstep] at h
            obtain ⟨hpre, hnd, hfirst, hcover⟩ := ih acc m h
            refine ⟨hpre, hnd, ?_, ?_⟩
            · intro o ho
              rcases hfirst o ho with hl | ⟨hnin, it2, hfind, hmk⟩
              · exact Or.inl hl
              · refine Or.inr ⟨hnin, it2, ?_, hmk⟩
                have hne : o.id ≠ i := fun hc => hnin (hc ▸ hmem)
                rw [List.find?_cons_of_neg _ (by simp [hid]; exact fun hc => hne hc.symm)]
                exact hfind
            · intro it2 hit2 i2 hi2
              rcases List.mem_cons.1 hit2 with rfl | hmem2
              · rw [hid] at hi2
                injection hi2 with hi2
                subst hi2
                obtain ⟨t, ht⟩ := hpre
                rw [ht, List.map_append]
                exact List.mem_append_left _ hmem
              · exact hcover it2 hmem2 i2 hi2
          · cases hmk : mkOffer i it with
            | error e =>
                have hstep : step acc it = Except.error e := by
                  simp [step, hid, hmem, hmk, Except.map]
                simp only [processItems, hstep] at h
                exact absurd h (by simp)
            | ok o0 =>
                have hstep : step acc it = Except.ok (acc ++ [o0]) := by
                  simp [step, hid, hmem, hmk, Except.map]
                simp only [processItems, hstep] at h
                obtain ⟨hpre, hnd, hfirst, hcover⟩ := ih (acc ++ [o0]) m h
                have ho0id : o0.id = i := mkOffer_id i it o0 hmk
                refine ⟨?_, ?_, ?_, ?_⟩
                · obtain ⟨t, ht⟩ := hpre
                  refine ⟨o0 :: t, ?_⟩
                  rw [ht, List.append_assoc]
                  rfl
                · intro hndacc
                  apply hnd
                  rw [List.map_append]
                  simp [List.nodup_append, hndacc, ho0id, hmem]
                · intro o ho
                  rcases hfirst o ho with hl | ⟨hnin, it2, hfind, hmk2⟩
                  · rcases List.mem_append.1 hl with hla | hlb
                    · exact Or.inl hla
                    · have hoeq : o = o0 := by simpa using hlb
                      subst hoeq
                      refine Or.inr ⟨ho0id ▸ hmem, it, ?_, ?_⟩
                      · rw [List.find?_cons_of_pos _ (by simp [hid, ho0id])]
                      · rw [ho0id]; exact hmk
                  · have hninacc : o.id ∉ acc.map Offer.id := fun hc =>
                      hnin (by rw [List.map_append]; exact List.mem_append_left _ hc)
                    have hne : o.id ≠ i := by
                      intro hc
                      apply hnin
                      rw [List.map_append]
                      refine List.mem_append_right _ ?_
                      simp [ho0id, hc]
                    refine Or.inr ⟨hninacc, it2, ?_, hmk2⟩
                    rw [List.find?_cons_of_neg _ (by simp [hid]; exact fun hc => hne hc.symm)]
                    exact hfind
                · intro it2 hit2 i2 hi2
                  rcases List.mem_cons.1 hit2 with rfl | hmem2
                  · rw [hid] at hi2
                    injection hi2 with hi2
                    subst hi2
                    obtain ⟨t, ht⟩ := hpre
                    rw [ht, List.map_append]
                    refine List.mem_append_left _ ?_
                    rw [List.map_append]
                    refine List.mem_append_right _ ?_
                    simp [ho0id]
                  · exact hcover it2 hmem2 i2 hi2

/-- C4: when search results contain items with the same id, `mergedItems` keeps
exactly one entry per id (the returned ids are pairwise distinct and every
truthy id occurring in the stream appears), and the kept entry is built from the
first occurrence of that id in keyword order then result order; later items with
an already-seen id are dropped silently. -/
theorem mergedItems_dedup_first_wins (results : List (Except Unit (List RawItem)))
    (m : List Offer) (h : mergedItems [] results = Except.ok m) :
    (m.map Offer.id).Nodup ∧
    (∀ o ∈ m, ∃ it,
      (successItems results).find? (fun x => decide (itemId x = some o.id)) = some it ∧
      mkOffer o.id it = Except.ok o) ∧
    (∀ it ∈ successItems results, ∀ i, itemId it = some i → i ∈ m.map Offer.id) := by
  rw [mergedItems_eq_processItems] at h
  obtain ⟨hpre, hnd, hfirst, hcover⟩ := processItems_spec (successItems results) [] m h
  refine ⟨hnd (by simp), ?_, hcover⟩
  intro o ho
  rcases hfirst o ho with hl | ⟨hnin, it, hfind, hmk⟩
  · simp at hl
  · exact ⟨it, hfind, hmk⟩

set_option maxRecDepth 4000 in
theorem merged_eval2 :
    mergedItems [] [Except.ok [itemA], Except.error (), Except.ok [itemA2, itemB]] =
      Except.ok [offA, offB] := by
  simp [mergedItems, processItems, step, itemId, mkOffer, cd_80_100, Except.map,
    itemA, itemA2, itemB, offA, offB]
  refine ⟨by decide, by decide⟩

/-- Witness for C4: keyword 1 returns item `"A"`, keyword 2 fails, keyword 3
returns a different item with id `"A"` (dropped) and item `"B"`. -/
theorem mergedItems_dedup_first_wins_witness :
    (([offA, offB]).map Offer.id).Nodup ∧
    (∀ o ∈ [offA, offB], ∃ it,
      (successItems [Except.ok [itemA], Except.error (), Except.ok [itemA2, itemB]]).find?
          (fun x => decide (itemId x = some o.id)) = some it ∧
      mkOffer o.id it = Except.ok o) ∧
    (∀ it ∈ successItems [Except.ok [itemA], Except.error (), Except.ok [itemA2, itemB]],
      ∀ i, itemId it = some i → i ∈ ([offA, offB]).map Offer.id) :=
  mergedItems_dedup_first_wins _ _ merged_eval2

theorem load_save (s : Finset String) : load_sent_ids (save_sent_ids s) = s := by
  simp [load_sent_ids, save_sent_ids]

theorem foldl_insert_union (l : List String) :
    ∀ s : Finset String, l.foldl (fun acc x => insert x acc) s = s ∪ l.toFinset := by
  induction l with
  | nil => intro s; simp
  | cons x xs ih =>
      intro s
      rw [List.foldl_cons, ih (insert x s), List.toFinset_cons, Finset.insert_union,
        Finset.union_insert]

theorem sendLoop_ok (fails : ℕ → Bool) (hf : ∀ j, fails j = false) :
    ∀ (toSend : List Offer) (s : Finset String) (i : ℕ),
      sendLoop fails toSend s i =
        ((toSend.map Offer.id).foldl (fun acc x => insert x acc) s,
          toSend.map Offer.id, false) := by
  intro toSend
  induction toSend with
  | nil => intro s i; rfl
  | cons o rest ih =>
      intro s i
      simp only [sendLoop, hf i, Bool.false_eq_true, if_false, List.map_cons, List.foldl_cons,
        ih (insert o.id s) (i + 1)]

theorem sendLoop_abort (fails : ℕ → Bool) :
    ∀ (toSend : List Offer) (s : Finset String) (i : ℕ),
      (sendLoop fails toSend s i).2.2 = true →
      ∃ t, toSend.map Offer.id = (sendLoop fails toSend s i).2.1 ++ t := by
  intro toSend
  induction toSend with
  | nil => intro s i h; exact absurd h (by simp [sendLoop])
  | cons o rest ih =>
      intro s i h
      by_cases hfi : fails i = true
      · refine ⟨o.id :: rest.map Offer.id, ?_⟩
        simp [sendLoop, hfi]
      · have hfi2 : fails i = false := by
          cases hf : fails i
          · rfl
          · exact absurd hf hfi
        simp only [sendLoop, hfi2, Bool.false_eq_true, if_false] at h ⊢
        obtain ⟨t, ht⟩ := ih (insert o.id s) (i + 1) h
        exact ⟨t, by simp [ht]⟩

/-- C5: a dispatch run over `N` new offers with batch size `B`, where every send
succeeds, sends exactly `min N B` messages (the ids of the first `B` offers, in
order), adds exactly those `min N B` ids to the persisted sent-id set, and does
not send any of the remaining `N - min N B` offers. -/
theorem run_once_logic_batch (fails : ℕ → Bool) (B : ℕ) (file : FileState)
    (offers : List Offer)
    (hf : ∀ i, fails i = false)
    (hnew : ∀ o ∈ offers, o.id ∉ load_sent_ids file)
    (hnd : (offers.map Offer.id).Nodup) :
    (run_once_logic fails B file offers).raised = false ∧
    (run_once_logic fails B file offers).sent = (offers.take B).map Offer.id ∧
    (run_once_logic fails B file offers).sent.length = min offers.length B ∧
    load_sent_ids (run_once_logic fails B file offers).file =
      load_sent_ids file ∪ ((offers.take B).map Offer.id).toFinset ∧
    (load_sent_ids (run_once_logic fails B file offers).file).card =
      (load_sent_ids file).card + min offers.length B ∧
    (∀ o ∈ offers.drop B, o.id ∉ (run_once_logic fails B file offers).sent) := by
  have hfilter : (offers.filter fun o => o.id ∉ load_sent_ids file) = offers :=
    List.filter_eq_self.2 fun o ho => by simpa using hnew o ho
  have htakeids : (offers.take B).map Offer.id = (offers.map Offer.id).take B :=
    List.map_take Offer.id offers B
  have hndtake : ((offers.take B).map Offer.id).Nodup := by
    rw [htakeids]
    exact hnd.sublist (List.take_sublist _ _)
  have hdisj : Disjoint (load_sent_ids file) ((offers.take B).map Offer.id).toFinset := by
    rw [Finset.disjoint_right]
    intro x hx
    rw [List.mem_toFinset, List.mem_map] at hx
    obtain ⟨o, ho, rfl⟩ := hx
    exact hnew o ((List.take_sublist B offers).mem ho)
  have hlen : ((offers.take B).map Offer.id).length = min offers.length B := by
    rw [List.length_map, List.length_take, Nat.min_comm]
  by_cases hoff0 : offers = []
  · subst hoff0
    refine ⟨rfl, by simp [run_once_logic], by simp [run_once_logic], ?_, ?_, by simp⟩
    · simp [run_once_logic]
    · simp [run_once_logic]
  · have hro : run_once_logic fails B file offers =
        ⟨save_sent_ids (((offers.take B).map Offer.id).foldl
            (fun acc x => insert x acc) (load_sent_ids file)),
          false, (offers.take B).map Offer.id⟩ := by
      simp only [run_once_logic, hfilter]
      rw [if_neg hoff0, sendLoop_ok fails hf]
      simp
    rw [hro]
    refine ⟨rfl, rfl, hlen ▸ rfl, ?_, ?_, ?_⟩
    · rw [load_save, foldl_insert_union]
    · rw [load_save, foldl_insert_union, Finset.card_union_of_disjoint hdisj,
        List.toFinset_card_of_nodup hndtake, hlen]
    · intro o ho hsent
      have hmemdrop : o.id ∈ (offers.drop B).map Offer.id := List.mem_map_of_mem _ ho
      have hmemtake : o.id ∈ (offers.map Offer.id).take B := htakeids ▸ hsent
      have hsplit : (offers.map Offer.id).take B ++ (offers.map Offer.id).drop B =
          offers.map Offer.id := List.take_append_drop _ _
      have hnd2 : ((offers.map Offer.id).take B ++ (offers.map Offer.id).drop B).Nodup := by
        rw [hsplit]; exact hnd
      have hdisj2 := List.disjoint_of_nodup_append hnd2
      exact hdisj2 hmemtake (by rw [← List.map_drop]; exact hmemdrop)

/-- Witness for C5: three new offers, batch size 10, all sends succeed. -/
theorem run_once_logic_batch_witness :
    (run_once_logic (fun _ => false) OFFERS_PER_RUN FileState.absent [offC, offB, offA]).raised
        = false ∧
    (run_once_logic (fun _ => false) OFFERS_PER_RUN FileState.absent [offC, offB, offA]).sent =
      ([offC, offB, offA].take OFFERS_PER_RUN).map Offer.id ∧
    (run_once_logic (fun _ => false) OFFERS_PER_RUN FileState.absent
        [offC, offB, offA]).sent.length = min ([offC, offB, offA] : List Offer).length
        OFFERS_PER_RUN ∧
    load_sent_ids (run_once_logic (fun _ => false) OFFERS_PER_RUN FileState.absent
        [offC, offB, offA]).file =
      load_sent_ids FileState.absent ∪
        (([offC, offB, offA].take OFFERS_PER_RUN).map Offer.id).toFinset ∧
    (load_sent_ids (run_once_logic (fun _ => false) OFFERS_PER_RUN FileState.absent
        [offC, offB, offA]).file).card =
      (load_sent_ids FileState.absent).card +
        min ([offC, offB, offA] : List Offer).length OFFERS_PER_RUN ∧
    (∀ o ∈ ([offC, offB, offA] : List Offer).drop OFFERS_PER_RUN,
      o.id ∉ (run_once_logic (fun _ => false) OFFERS_PER_RUN FileState.absent
        [offC, offB, offA]).sent) :=
  run_once_logic_batch (fun _ => false) OFFERS_PER_RUN FileState.absent [offC, offB, offA]
    (fun _ => rfl) (by simp [load_sent_ids]) (by decide)

/-- C9: if an exception is raised during the send loop, the persisted sent-id
file is left unchanged, so the already-sent offers are selected again and re-sent
(as the first messages) by the next fully successful run. -/
theorem run_once_logic_abort_preserves_file (fails : ℕ → Bool) (B : ℕ) (file : FileState)
    (offers : List Offer)
    (h : (run_once_logic fails B file offers).raised = true) :
    (run_once_logic fails B file offers).file = file ∧
    ∃ t, (run_once_logic (fun _ => false) B file offers).sent =
      (run_once_logic fails B file offers).sent ++ t := by
  by_cases hn : (offers.filter fun o => o.id ∉ load_sent_ids file) = []
  · have hr : (run_once_logic fails B file offers).raised = false := by
      simp only [run_once_logic]
      rw [if_pos hn]
    rw [hr] at h
    exact absurd h (by decide)
  · have hloop := sendLoop_abort fails
      ((offers.filter fun o => o.id ∉ load_sent_ids file).take B) (load_sent_ids file) 0
    by_cases hab : (sendLoop fails ((offers.filter fun o => o.id ∉ load_sent_ids file).take B)
        (load_sent_ids file) 0).2.2 = true
    · obtain ⟨t, ht⟩ := hloop hab
      constructor
      · simp only [run_once_logic]
        rw [if_neg hn, if_pos hab]
      · refine ⟨t, ?_⟩
        have hok := sendLoop_ok (fun _ => false) (fun _ => rfl)
          ((offers.filter fun o => o.id ∉ load_sent_ids file).take B) (load_sent_ids file) 0
        simp only [run_once_logic]
        rw [if_neg hn, if_neg hn, hok, if_pos hab]
        exact ht
    · have hr : (run_once_logic fails B file offers).raised = false := by
        simp only [run_once_logic]
        rw [if_neg hn, if_neg hab]
      rw [hr] at h
      exact absurd h (by decide)

/-- Witness for C9: the second send fails; the file stays absent and the one sent
id (`"C"`) is re-sent first on the following successful run. -/
theorem run_once_logic_abort_preserves_file_witness :
    (run_once_logic (fun i => decide (i = 1)) OFFERS_PER_RUN FileState.absent
        [offC, offB, offA]).file = FileState.absent ∧
    ∃ t, (run_once_logic (fun _ => false) OFFERS_PER_RUN FileState.absent
        [offC, offB, offA]).sent =
      (run_once_logic (fun i => decide (i = 1)) OFFERS_PER_RUN FileState.absent
        [offC, offB, offA]).sent ++ t :=
  run_once_logic_abort_preserves_file (fun i => decide (i = 1)) OFFERS_PER_RUN
    FileState.absent [offC, offB, offA] (by decide)

/-- C8: `load_sent_ids` is a total function (never raises); it returns the empty
set when the file is absent, unreadable/malformed, or lacks an `ids` array, and
the set of the listed ids when the file is a JSON object with an `ids` array. -/
theorem load_sent_ids_spec :
    load_sent_ids FileState.absent = ∅ ∧
    load_sent_ids FileState.unreadable = ∅ ∧
    load_sent_ids (FileState.valid none) = ∅ ∧
    ∀ (ids : List String) (x : String),
      x ∈ load_sent_ids (FileState.valid (some ids)) ↔ x ∈ ids := by
  refine ⟨rfl, rfl, rfl, ?_⟩
  intro ids x
  simp [load_sent_ids]
